import Mathlib

/-!
Verification of the streaming response pipeline and its resilience layer.

The definitions below are a shallow embedding of the TypeScript sources:
* `src/src/hooks/useEnhancePrompt.ts` (the enhancement session / SSE read loop),
* `src/src/utils/errors.ts` (the error classifier),
* `src/supabase/functions/enhance-prompt/utils/retry.ts` (bounded retry with
  jittered exponential backoff),
* `src/supabase/functions/enhance-prompt/utils/rateLimiter.ts` (the per-identity
  request gate).

JavaScript strings are modelled as `List Char`; JavaScript `number`s used for
delays and random draws as `ℚ`; platform builtins (`fetch`, `JSON.parse`,
`TextDecoder`, timers, toasts, logging) are modelled as explicit parameters or
omitted effects, as noted at each definition.
-/

/-- The whitespace characters relevant to `String.prototype.trim` for the ASCII
inputs this pipeline handles (JS also trims some exotic Unicode spaces, which
never occur in SSE frames). -/
def isJsSpace (c : Char) : Bool :=
  c = ' ' || c = '\t' || c = '\n' || c = '\r' || c = '\x0b' || c = '\x0c'

/-- Embeds `s.trim()`: remove leading and trailing whitespace. -/
def jsTrim (l : List Char) : List Char :=
  ((l.dropWhile isJsSpace).reverse.dropWhile isJsSpace).reverse

/-- Embeds `if (line.endsWith("\r")) line = line.slice(0, -1)`
(useEnhancePrompt.ts line 135 and line 165): drop one trailing carriage
return if present. -/
def stripCR (l : List Char) : List Char :=
  if l.getLast? = some '\r' then l.dropLast else l

/-- Embeds `buffer.indexOf("\n")` together with the two `slice` calls of
useEnhancePrompt.ts lines 131-133: split the buffer at its first newline,
excluding the newline itself; `none` when the buffer holds no newline. -/
def splitFirstNewline : List Char → Option (List Char × List Char)
  | [] => none
  | c :: cs =>
    if c = '\n' then some ([], cs)
    else (splitFirstNewline cs).map fun p => (c :: p.1, p.2)

theorem splitFirstNewline_none_iff (l : List Char) :
    splitFirstNewline l = none ↔ '\n' ∉ l := by
  induction l with
  | nil => simp [splitFirstNewline]
  | cons c cs ih =>
    by_cases hc : c = '\n'
    · subst hc; simp [splitFirstNewline]
    · simp [splitFirstNewline, hc, Option.map_eq_none, ih, Ne.symm hc]

theorem splitFirstNewline_some (l a r : List Char)
    (h : splitFirstNewline l = some (a, r)) : l = a ++ '\n' :: r := by
  induction l generalizing a r with
  | nil => simp [splitFirstNewline] at h
  | cons c cs ih =>
    by_cases hc : c = '\n'
    · subst hc
      simp [splitFirstNewline] at h
      obtain ⟨rfl, rfl⟩ := h
      simp
    · have hstep : splitFirstNewline (c :: cs)
          = (splitFirstNewline cs).map (fun p => (c :: p.1, p.2)) := by
        simp [splitFirstNewline, hc]
      rw [hstep] at h
      cases hcs : splitFirstNewline cs with
      | none => rw [hcs] at h; simp at h
      | some p =>
        obtain ⟨pa, pr⟩ := p
        rw [hcs] at h
        simp at h
        obtain ⟨rfl, rfl⟩ := h
        rw [ih pa pr hcs]
        simp

theorem splitFirstNewline_length (l a r : List Char)
    (h : splitFirstNewline l = some (a, r)) : r.length < l.length := by
  have := splitFirstNewline_some l a r h
  subst this
  simp
  omega

theorem splitFirstNewline_append_none (b c : List Char)
    (h : splitFirstNewline b = none) :
    splitFirstNewline (b ++ c) =
      (splitFirstNewline c).map fun p => (b ++ p.1, p.2) := by
  induction b with
  | nil => simp
  | cons x xs ih =>
    by_cases hx : x = '\n'
    · subst hx; simp [splitFirstNewline] at h
    · simp [splitFirstNewline, hx] at h ⊢
      rw [ih h]
      cases splitFirstNewline c with
      | none => simp
      | some p => simp

theorem splitFirstNewline_append_some (b c a r : List Char)
    (h : splitFirstNewline b = some (a, r)) :
    splitFirstNewline (b ++ c) = some (a, r ++ c) := by
  induction b generalizing a r with
  | nil => simp [splitFirstNewline] at h
  | cons x xs ih =>
    by_cases hx : x = '\n'
    · subst hx
      simp [splitFirstNewline] at h ⊢
      obtain ⟨rfl, rfl⟩ := h
      simp
    · have hstep : ∀ t : List Char, splitFirstNewline (x :: t)
          = (splitFirstNewline t).map (fun p => (x :: p.1, p.2)) := by
        intro t
        simp [splitFirstNewline, hx]
      rw [hstep] at h
      cases hcs : splitFirstNewline xs with
      | none => rw [hcs] at h; simp at h
      | some p =>
        obtain ⟨pa, pr⟩ := p
        rw [hcs] at h
        simp at h
        obtain ⟨rfl, rfl⟩ := h
        rw [List.cons_append, hstep, ih pa pr hcs]
        rfl

/-- The line-extraction step of the SSE read loop (useEnhancePrompt.ts lines
128-135, stripped of per-line semantic processing): repeatedly extract
everything up to and excluding the next newline, stripping one trailing
carriage return from each extracted line, until no newline remains; returns
the extracted lines in order together with the residual held buffer. -/
def extractLines (buf : List Char) : List (List Char) × List Char :=
  match h : splitFirstNewline buf with
  | none => ([], buf)
  | some (line, rest) =>
    let p := extractLines rest
    (stripCR line :: p.1, p.2)
termination_by buf.length
decreasing_by exact splitFirstNewline_length buf line rest h

theorem extractLines_of_none (buf : List Char)
    (h : splitFirstNewline buf = none) : extractLines buf = ([], buf) := by
  rw [extractLines, h]

theorem extractLines_of_some (buf a r : List Char)
    (h : splitFirstNewline buf = some (a, r)) :
    extractLines buf = (stripCR a :: (extractLines r).1, (extractLines r).2) := by
  rw [extractLines, h]

theorem extractLines_append_aux (n : Nat) :
    ∀ b c : List Char, b.length ≤ n →
      extractLines (b ++ c) =
        ((extractLines b).1 ++ (extractLines ((extractLines b).2 ++ c)).1,
          (extractLines ((extractLines b).2 ++ c)).2) := by
  induction n with
  | zero =>
    intro b c hb
    have : b = [] := List.length_eq_zero.mp (Nat.le_zero.mp hb)
    subst this
    simp [extractLines_of_none [] rfl]
  | succ n ih =>
    intro b c hb
    cases h : splitFirstNewline b with
    | none =>
      rw [extractLines_of_none b h]
      simp
    | some p =>
      cases p with
      | mk a r =>
        have hlen : r.length ≤ n := by
          have := splitFirstNewline_length b a r h
          omega
        rw [extractLines_of_some b a r h,
          extractLines_of_some (b ++ c) a (r ++ c)
            (splitFirstNewline_append_some b c a r h),
          ih r c hlen]
        simp

theorem extractLines_append (b c : List Char) :
    extractLines (b ++ c) =
      ((extractLines b).1 ++ (extractLines ((extractLines b).2 ++ c)).1,
        (extractLines ((extractLines b).2 ++ c)).2) :=
  extractLines_append_aux b.length b c (Nat.le_refl _)

theorem extractLines_residual_aux (n : Nat) :
    ∀ buf : List Char, buf.length ≤ n →
      splitFirstNewline (extractLines buf).2 = none := by
  induction n with
  | zero =>
    intro buf hb
    have : buf = [] := List.length_eq_zero.mp (Nat.le_zero.mp hb)
    subst this
    rw [extractLines_of_none [] rfl]
    rfl
  | succ n ih =>
    intro buf hb
    cases h : splitFirstNewline buf with
    | none => rw [extractLines_of_none buf h]; exact h
    | some p =>
      cases p with
      | mk a r =>
        have hlen : r.length ≤ n := by
          have := splitFirstNewline_length buf a r h
          omega
        rw [extractLines_of_some buf a r h]
        exact ih r hlen

theorem extractLines_residual (buf : List Char) :
    splitFirstNewline (extractLines buf).2 = none :=
  extractLines_residual_aux buf.length buf (Nat.le_refl _)

/-- Sequential chunked line extraction: for each arriving chunk, append it to
the held buffer (`buffer += decoder.decode(value, { stream: true })`,
useEnhancePrompt.ts line 128) and run the line-extraction step, carrying the
residual buffer to the next chunk. Returns all extracted lines in order and
the final residual buffer. -/
def processChunksLines : List (List Char) → List Char → List (List Char) × List Char
  | [], buf => ([], buf)
  | c :: cs, buf =>
    let p := extractLines (buf ++ c)
    let q := processChunksLines cs p.2
    (p.1 ++ q.1, q.2)

theorem processChunksLines_eq (cs : List (List Char)) :
    ∀ b : List Char, splitFirstNewline b = none →
      processChunksLines cs b = extractLines (b ++ cs.flatten) := by
  induction cs with
  | nil =>
    intro b hb
    simp [processChunksLines, extractLines_of_none b hb]
  | cons c cs ih =>
    intro b hb
    have hres := extractLines_residual (b ++ c)
    have := ih (extractLines (b ++ c)).2 hres
    simp only [processChunksLines, this]
    have happ := extractLines_append (b ++ c) cs.flatten
    simp only [List.flatten_cons, ← List.append_assoc]
    rw [happ]

/-- The closed error taxonomy `EnhanceErrorType` of src/src/utils/errors.ts. -/
inductive EnhanceErrorType where
  | network
  | rateLimit
  | payment
  | invalidContent
  | contentTooLong
  | timeout
  | serverError
  | generic
  | abort
deriving DecidableEq

/-- A JavaScript `Error` value as seen by `classifyEnhanceError`:
its `name`, its `message`, and `apiStatus = some s` exactly when the value is
an `instanceof ApiError` carrying HTTP status `s` (errors.ts lines 51-61). -/
structure ErrVal where
  name : List Char
  message : List Char
  apiStatus : Option Nat

/-- Embeds `message.includes(sub)` (case-sensitive substring test). -/
def containsSub (msg sub : List Char) : Bool :=
  match msg with
  | [] => sub.isEmpty
  | _ :: t => sub.isPrefixOf msg || containsSub t sub

/-- Embeds `message.toLowerCase().includes(sub)` for an already-lowercase
`sub` (ASCII lowering, which covers the probed substrings). -/
def lowerContains (msg sub : List Char) : Bool :=
  containsSub (msg.map Char.toLower) sub

/-- The fall-through tail of `classifyEnhanceError` (errors.ts lines 138-145):
reached when the error is not an `ApiError`, or is an `ApiError` whose status
matches none of the numeric rules. -/
def classifyFallback (e : ErrVal) : EnhanceErrorType :=
  if lowerContains e.message "network".toList || lowerContains e.message "fetch".toList then
    .network
  else
    .generic

/-- Embeds `classifyEnhanceError` (errors.ts lines 122-146). -/
def classifyEnhanceError (e : ErrVal) : EnhanceErrorType :=
  if e.name = "AbortError".toList then .abort
  else
    match e.apiStatus with
    | some s =>
      if s = 429 then .rateLimit
      else if s = 402 then .payment
      else if s = 400 then
        if containsSub e.message "too long".toList
            || containsSub e.message "content length".toList then .contentTooLong
        else .invalidContent
      else if s = 408 ∨ s = 504 then .timeout
      else if 500 ≤ s then .serverError
      else classifyFallback e
    | none => classifyFallback e

/-- The spec's informal "message mentions length/too-long" for the 400 case,
instantiated with the two substrings the message can mention, as probed by the
code: "too long" and "content length". -/
def mentionsLength (msg : List Char) : Bool :=
  containsSub msg "too long".toList || containsSub msg "content length".toList

/-- Whether the optional ApiError status is at least 500 (spec rule 6). -/
def statusAtLeast500 : Option Nat → Bool
  | some s => decide (500 ≤ s)
  | none => false

/-- Modelled from the spec: the priority-ordered decision table of §4.3,
written as one flat rule chain (rule 1 cancellation, rules 2-6 numeric status
of an ApiError, rule 7 the case-insensitive network/fetch message probe,
rule 8 generic). -/
def specClassify (e : ErrVal) : EnhanceErrorType :=
  if e.name = "AbortError".toList then .abort
  else if e.apiStatus = some 429 then .rateLimit
  else if e.apiStatus = some 402 then .payment
  else if e.apiStatus = some 400 then
    if mentionsLength e.message then .contentTooLong else .invalidContent
  else if e.apiStatus = some 408 ∨ e.apiStatus = some 504 then .timeout
  else if statusAtLeast500 e.apiStatus then .serverError
  else if lowerContains e.message "network".toList
      || lowerContains e.message "fetch".toList then .network
  else .generic

/-- C3: `classifyEnhanceError` implements the spec's priority-ordered decision
table exactly (AbortError → abort; then for ApiError: 429 → rate-limit,
402 → payment, 400 → content-too-long/invalid-content by message, 408/504 →
timeout, ≥ 500 → server-error; only afterwards the case-insensitive
network/fetch message probe, else generic); in particular an ApiError with
status 500 classifies as server-error regardless of its message. -/
theorem classifyEnhanceError_matches_spec_table :
    (∀ e : ErrVal, classifyEnhanceError e = specClassify e) ∧
    (∀ msg : List Char,
      classifyEnhanceError ⟨"ApiError".toList, msg, some 500⟩ = .serverError) := by
  constructor
  · intro e
    unfold classifyEnhanceError specClassify classifyFallback statusAtLeast500
      mentionsLength
    cases h : e.apiStatus with
    | none =>
      simp only [h]
      split_ifs <;> simp_all
    | some s =>
      simp only [h, Option.some.injEq]
      split_ifs <;> simp_all <;> omega
  · intro msg
    simp [classifyEnhanceError]

/-- The observable part of a `fetch` `Response` used by retry.ts: its HTTP
status. `respOk` embeds `response.ok` (status in 200-299). -/
structure Resp where
  status : Nat
deriving DecidableEq

/-- Embeds `response.ok`: true exactly for a 2xx status. -/
def respOk (r : Resp) : Bool :=
  decide (200 ≤ r.status ∧ r.status < 300)

/-- The `RetryOptions` record of retry.ts lines 3-9 (the optional `requestId`
only feeds logging and is omitted). Delay fields are rationals, standing for
JS numbers. -/
structure RetryOptions where
  maxRetries : Nat
  baseDelay : ℚ
  maxDelay : ℚ
  retryableStatuses : List Nat

/-- `DEFAULT_OPTIONS` of retry.ts lines 11-16. -/
def DEFAULT_OPTIONS : RetryOptions :=
  { maxRetries := 3
    baseDelay := 1000
    maxDelay := 10000
    retryableStatuses := [408, 429, 500, 502, 503, 504] }

/-- The backoff delay computed before a retry (retry.ts lines 38-40 and
54-56): `currentDelay = baseDelay * 2^attempt`,
`jitter = currentDelay * 0.2 * (Math.random() - 0.5)`,
`delay = Math.min(Math.round(currentDelay + jitter), maxDelay)`.
`r` stands for the `Math.random()` draw, a value in [0, 1); JS `Math.round`
is `⌊x + 1/2⌋`, Mathlib's `round`. -/
def backoffDelay (baseDelay maxDelay : ℚ) (attempt : Nat) (r : ℚ) : ℚ :=
  let currentDelay := baseDelay * 2 ^ attempt
  let jitter := currentDelay * (2 / 10) * (r - 1 / 2)
  min ((round (currentDelay + jitter) : ℤ) : ℚ) maxDelay

/-- What one `fetch(url, options)` call inside the retry loop produces:
a response, or a thrown exception with its `name` and `message`. The loop is
parameterised by an oracle `Nat → AttemptResult` giving the outcome of each
zero-based attempt. -/
inductive AttemptResult where
  | resp (r : Resp)
  | thrown (name msg : List Char)

/-- The caller-visible outcome of `fetchWithRetry`: a returned response, the
rethrown exception of the final attempt, or the trailing
`throw new Error("Fetch with retry failed after all attempts.")` after the
loop (retry.ts line 68). -/
inductive FetchOut where
  | ok (r : Resp)
  | rethrown (name msg : List Char)
  | exhausted
deriving DecidableEq

/-- The attempt loop of `fetchWithRetry` (retry.ts lines 25-65), embedded with
`fuel` counting the loop iterations that remain (`maxRetries + 1 - attempt`);
`fuel = 0` is the loop exiting and falling through to the trailing throw.
Returns the outcome, the number of `fetch` calls issued, and the list of
backoff delays slept (the awaited `setTimeout` itself is an external effect);
`rand` supplies the `Math.random()` draw of each attempt. -/
def fetchGo (oracle : Nat → AttemptResult) (rand : Nat → ℚ) (opts : RetryOptions) :
    Nat → Nat → FetchOut × Nat × List ℚ
  | _, 0 => (.exhausted, 0, [])
  | attempt, fuel + 1 =>
    match oracle attempt with
    | .resp r =>
      if respOk r || !(opts.retryableStatuses.contains r.status) then (.ok r, 1, [])
      else if attempt = opts.maxRetries then (.ok r, 1, [])
      else
        let d := backoffDelay opts.baseDelay opts.maxDelay attempt (rand attempt)
        let q := fetchGo oracle rand opts (attempt + 1) fuel
        (q.1, q.2.1 + 1, d :: q.2.2)
    | .thrown nm msg =>
      if attempt = opts.maxRetries then (.rethrown nm msg, 1, [])
      else
        let d := backoffDelay opts.baseDelay opts.maxDelay attempt (rand attempt)
        let q := fetchGo oracle rand opts (attempt + 1) fuel
        (q.1, q.2.1 + 1, d :: q.2.2)

/-- Embeds `fetchWithRetry` (retry.ts lines 18-69): run the attempt loop from
attempt 0 with its full `maxRetries + 1` iteration budget. -/
def fetchWithRetry (oracle : Nat → AttemptResult) (rand : Nat → ℚ)
    (opts : RetryOptions) : FetchOut × Nat × List ℚ :=
  fetchGo oracle rand opts 0 (opts.maxRetries + 1)

/-- C6: for every zero-based attempt and every random draw in [0,1), the
backoff delay equals min(round(base·2^attempt + base·2^attempt·0.2·(r−0.5)),
maxDelay) (with the defaults base = 1000, maxDelay = 10000); it never exceeds
maxDelay, and before capping the rounded value deviates from base·2^attempt
by at most ±10%. -/
theorem backoffDelay_formula_and_bounds (a : Nat) (r : ℚ)
    (h0 : 0 ≤ r) (h1 : r < 1) :
    backoffDelay 1000 10000 a r =
      min ((round ((1000 * 2 ^ a : ℚ) + (1000 * 2 ^ a) * (2 / 10) * (r - 1 / 2)) : ℤ) : ℚ)
        10000 ∧
    backoffDelay 1000 10000 a r ≤ 10000 ∧
    |((round ((1000 * 2 ^ a : ℚ) + (1000 * 2 ^ a) * (2 / 10) * (r - 1 / 2)) : ℤ) : ℚ)
        - 1000 * 2 ^ a| ≤ (1000 * 2 ^ a) / 10 := by
  refine ⟨rfl, min_le_right _ _, ?_⟩
  set C : ℚ := 1000 * 2 ^ a with hC
  have hCpos : (0 : ℚ) < C := by positivity
  set pre : ℚ := C + C * (2 / 10) * (r - 1 / 2) with hpre
  have hlow : C - C / 10 ≤ pre := by
    rw [hpre]
    nlinarith [mul_nonneg hCpos.le h0]
  have hhigh : pre < C + C / 10 := by
    rw [hpre]
    nlinarith [mul_pos hCpos (by linarith : (0 : ℚ) < 1 - r)]
  have hCcast : C = ((1000 * 2 ^ a : ℤ) : ℚ) := by
    rw [hC]
    push_cast
    ring
  have hlowZ : (900 * 2 ^ a : ℤ) ≤ round pre := by
    rw [round_eq, Int.le_floor]
    have : ((900 * 2 ^ a : ℤ) : ℚ) = C - C / 10 := by
      rw [hC]
      push_cast
      ring
    rw [this]
    linarith
  have hhighZ : round pre ≤ (1100 * 2 ^ a : ℤ) := by
    rw [round_eq]
    have hlt : ⌊pre + 1 / 2⌋ < 1100 * 2 ^ a + 1 := by
      rw [Int.floor_lt]
      have : ((1100 * 2 ^ a + 1 : ℤ) : ℚ) = C + C / 10 + 1 := by
        rw [hC]
        push_cast
        ring
      rw [this]
      linarith
    omega
  rw [abs_le]
  constructor
  · have hq : ((900 * 2 ^ a : ℤ) : ℚ) ≤ ((round pre : ℤ) : ℚ) := by
      exact_mod_cast hlowZ
    have h9 : ((900 * 2 ^ a : ℤ) : ℚ) = C - C / 10 := by
      rw [hC]
      push_cast
      ring
    linarith
  · have hq : ((round pre : ℤ) : ℚ) ≤ ((1100 * 2 ^ a : ℤ) : ℚ) := by
      exact_mod_cast hhighZ
    have h11 : ((1100 * 2 ^ a : ℤ) : ℚ) = C + C / 10 := by
      rw [hC]
      push_cast
      ring
    linarith

theorem fetchGo_count_pos (oracle : Nat → AttemptResult) (rand : Nat → ℚ)
    (opts : RetryOptions) (attempt fuel : Nat) :
    1 ≤ (fetchGo oracle rand opts attempt (fuel + 1)).2.1 := by
  cases horacle : oracle attempt with
  | resp r =>
    simp only [fetchGo, horacle]
    split_ifs <;> simp
  | thrown nm msg =>
    simp only [fetchGo, horacle]
    split_ifs <;> simp

theorem fetchGo_exits (oracle : Nat → AttemptResult) (rand : Nat → ℚ)
    (opts : RetryOptions) :
    ∀ fuel attempt, attempt ≤ opts.maxRetries →
      attempt + fuel = opts.maxRetries + 1 →
      (∃ r, (fetchGo oracle rand opts attempt fuel).1 = .ok r) ∨
      (∃ nm msg, (fetchGo oracle rand opts attempt fuel).1 = .rethrown nm msg ∧
        oracle opts.maxRetries = .thrown nm msg) := by
  intro fuel
  induction fuel with
  | zero =>
    intro attempt hle hsum
    omega
  | succ fuel ih =>
    intro attempt hle hsum
    cases horacle : oracle attempt with
    | resp r =>
      simp only [fetchGo, horacle]
      by_cases h1 : (respOk r || !(opts.retryableStatuses.contains r.status)) = true
      · rw [if_pos h1]
        exact Or.inl ⟨r, rfl⟩
      · rw [if_neg h1]
        by_cases h2 : attempt = opts.maxRetries
        · rw [if_pos h2]
          exact Or.inl ⟨r, rfl⟩
        · rw [if_neg h2]
          exact ih (attempt + 1) (by omega) (by omega)
    | thrown nm msg =>
      simp only [fetchGo, horacle]
      by_cases h2 : attempt = opts.maxRetries
      · rw [if_pos h2]
        subst h2
        exact Or.inr ⟨nm, msg, rfl, horacle⟩
      · rw [if_neg h2]
        exact ih (attempt + 1) (by omega) (by omega)

/-- C10: for every oracle, random source and options, `fetchWithRetry` exits
from inside its attempt loop: it either returns a response obtained from a
fetch attempt or rethrows the exception of the final attempt, so the trailing
`throw new Error("Fetch with retry failed after all attempts.")` after the
loop is unreachable. -/
theorem fetchWithRetry_never_exhausted (oracle : Nat → AttemptResult)
    (rand : Nat → ℚ) (opts : RetryOptions) :
    ((∃ r, (fetchWithRetry oracle rand opts).1 = .ok r) ∨
      (∃ nm msg, (fetchWithRetry oracle rand opts).1 = .rethrown nm msg ∧
        oracle opts.maxRetries = .thrown nm msg)) ∧
    (fetchWithRetry oracle rand opts).1 ≠ .exhausted := by
  have h : (∃ r, (fetchWithRetry oracle rand opts).1 = .ok r) ∨
      (∃ nm msg, (fetchWithRetry oracle rand opts).1 = .rethrown nm msg ∧
        oracle opts.maxRetries = .thrown nm msg) :=
    fetchGo_exits oracle rand opts (opts.maxRetries + 1) 0 (Nat.zero_le _) (by omega)
  refine ⟨h, ?_⟩
  intro heq
  rcases h with ⟨r, hr⟩ | ⟨nm, msg, hr, _⟩ <;> rw [heq] at hr <;>
    exact FetchOut.noConfusion hr

theorem fetchGo_all_retryable (oracle : Nat → AttemptResult) (rand : Nat → ℚ)
    (opts : RetryOptions) (f : Nat → Resp)
    (ho : ∀ i, i ≤ opts.maxRetries → oracle i = .resp (f i))
    (hbad : ∀ i, i ≤ opts.maxRetries → respOk (f i) = false)
    (hret : ∀ i, i ≤ opts.maxRetries →
      opts.retryableStatuses.contains (f i).status = true) :
    ∀ fuel attempt, attempt ≤ opts.maxRetries →
      attempt + fuel = opts.maxRetries + 1 →
      (fetchGo oracle rand opts attempt fuel).1 = .ok (f opts.maxRetries) ∧
      (fetchGo oracle rand opts attempt fuel).2.1 = fuel := by
  intro fuel
  induction fuel with
  | zero =>
    intro attempt hle hsum
    omega
  | succ fuel ih =>
    intro attempt hle hsum
    simp only [fetchGo, ho attempt hle]
    have hnot : ¬((respOk (f attempt) ||
        !(opts.retryableStatuses.contains (f attempt).status)) = true) := by
      rw [hbad attempt hle, hret attempt hle]
      simp
    rw [if_neg hnot]
    by_cases h2 : attempt = opts.maxRetries
    · rw [if_pos h2]
      have hf : fuel = 0 := by omega
      subst hf
      subst h2
      exact ⟨rfl, rfl⟩
    · rw [if_neg h2]
      have hih := ih (attempt + 1) (by omega) (by omega)
      exact ⟨hih.1, by simp only [hih.2]⟩

/-- C4: if every attempt yields a response whose status lies in the configured
retryable-status set (and is not 2xx), `fetchWithRetry` issues exactly
`maxRetries + 1` fetch calls and returns the last received response instead of
throwing or hanging. -/
theorem fetchWithRetry_exhaustion (oracle : Nat → AttemptResult)
    (rand : Nat → ℚ) (opts : RetryOptions) (f : Nat → Resp)
    (ho : ∀ i, i ≤ opts.maxRetries → oracle i = .resp (f i))
    (hbad : ∀ i, i ≤ opts.maxRetries → respOk (f i) = false)
    (hret : ∀ i, i ≤ opts.maxRetries →
      opts.retryableStatuses.contains (f i).status = true) :
    (fetchWithRetry oracle rand opts).1 = .ok (f opts.maxRetries) ∧
    (fetchWithRetry oracle rand opts).2.1 = opts.maxRetries + 1 :=
  fetchGo_all_retryable oracle rand opts f ho hbad hret
    (opts.maxRetries + 1) 0 (Nat.zero_le _) (by omega)

/-- A fetch oracle standing for a server that always answers HTTP 503. -/
def oracle503 : Nat → AttemptResult := fun _ => .resp ⟨503⟩

theorem fetchWithRetry_exhaustion_witness :
    (fetchWithRetry oracle503 (fun _ => 0) DEFAULT_OPTIONS).1 = .ok ⟨503⟩ ∧
    (fetchWithRetry oracle503 (fun _ => 0) DEFAULT_OPTIONS).2.1 = 4 :=
  fetchWithRetry_exhaustion oracle503 (fun _ => 0) DEFAULT_OPTIONS
    (fun _ => ⟨503⟩) (fun _ _ => rfl) (fun _ _ => rfl) (fun _ _ => rfl)

theorem backoffDelay_formula_and_bounds_witness :
    (0 ≤ (1 / 4 : ℚ) ∧ (1 / 4 : ℚ) < 1) ∧
    backoffDelay 1000 10000 0 (1 / 4) ≤ 10000 :=
  ⟨⟨by norm_num, by norm_num⟩,
    (backoffDelay_formula_and_bounds 0 (1 / 4) (by norm_num) (by norm_num)).2.1⟩

/-- A `RateLimitEntry` of rateLimiter.ts lines 3-6: request count and window
expiry time (epoch milliseconds). -/
structure RateLimitEntry where
  count : Nat
  resetAt : Nat
deriving DecidableEq

/-- `RATE_LIMIT_PER_MINUTE` of rateLimiter.ts line 10. -/
def RATE_LIMIT_PER_MINUTE : Nat := 60

/-- `WINDOW_MS` of rateLimiter.ts line 11. -/
def WINDOW_MS : Nat := 60000

/-- The record returned by `checkRateLimit`. -/
structure RateResult where
  allowed : Bool
  remaining : Nat
  resetIn : Int
deriving DecidableEq

/-- Embeds `checkRateLimit` (rateLimiter.ts lines 13-50) for one fixed client
identity: the state is `rateLimitMap.get(ip)` for that identity (the map is
keyed per `ip` and a call touches only its own key, so identities are
independent); `now` is `Date.now()` in milliseconds. First the expired entry
is cleaned up, then either a fresh window is opened, the call is denied at the
limit, or the count is incremented. -/
def checkRateLimit (now : Nat) (entry : Option RateLimitEntry) :
    RateResult × Option RateLimitEntry :=
  let cleaned : Option RateLimitEntry :=
    match entry with
    | some e => if e.resetAt < now then none else some e
    | none => none
  match cleaned with
  | none =>
    ({ allowed := true, remaining := RATE_LIMIT_PER_MINUTE - 1,
       resetIn := (WINDOW_MS : Int) },
      some { count := 1, resetAt := now + WINDOW_MS })
  | some current =>
    if RATE_LIMIT_PER_MINUTE ≤ current.count then
      ({ allowed := false, remaining := 0,
         resetIn := (current.resetAt : Int) - (now : Int) }, some current)
    else
      ({ allowed := true,
         remaining := RATE_LIMIT_PER_MINUTE - (current.count + 1),
         resetIn := (current.resetAt : Int) - (now : Int) },
        some { count := current.count + 1, resetAt := current.resetAt })

/-- A sequence of `checkRateLimit` calls for one identity at the given
timestamps, threading the stored entry; results in call order. -/
def runRate : List Nat → Option RateLimitEntry → List RateResult × Option RateLimitEntry
  | [], e => ([], e)
  | t :: ts, e =>
    let p := checkRateLimit t e
    let q := runRate ts p.2
    (p.1 :: q.1, q.2)

/-- A call trace for one identity: one call at t=0 opening the window
[0, 60000], 59 calls at t=59000, then two calls at t=60001 (just after the
fixed window expired). -/
def slidingProbeTimes : List Nat :=
  0 :: (List.replicate 59 59000 ++ List.replicate 2 60001)

/-- C8 counterexample: the limiter is a fixed window anchored at the first
request, not a sliding one. On `slidingProbeTimes`, the 61 calls falling in
the sliding 60-second interval [59000, 60001] (1001 ms wide) are all allowed,
exceeding the claimed bound of 60 allowed calls per sliding 60-second
window. -/
theorem checkRateLimit_not_sliding_counterexample :
    ((slidingProbeTimes.zip (runRate slidingProbeTimes none).1).countP
      (fun p => decide (59000 ≤ p.1) && decide (p.1 ≤ 60001) && p.2.allowed) = 61) ∧
    60001 - 59000 ≤ 60000 ∧ 60 < 61 := by
  refine ⟨by decide, by decide, by decide⟩

theorem runRate_window_bound (T : Nat) :
    ∀ (ts : List Nat) (c : Nat), (∀ t ∈ ts, t ≤ T) →
      ((runRate ts (some ⟨c, T⟩)).1.countP (fun r => r.allowed))
        ≤ RATE_LIMIT_PER_MINUTE - min c RATE_LIMIT_PER_MINUTE := by
  intro ts
  induction ts with
  | nil => intro c _; simp [runRate]
  | cons t ts ih =>
    intro c hts
    have hT : ¬(T < t) := by
      have := hts t (by simp)
      omega
    by_cases hc : RATE_LIMIT_PER_MINUTE ≤ c
    · have hstep : checkRateLimit t (some ⟨c, T⟩) =
          ({ allowed := false, remaining := 0,
             resetIn := (T : Int) - (t : Int) }, some ⟨c, T⟩) := by
        simp only [checkRateLimit, hT, if_false]
        rw [if_pos hc]
      simp only [runRate, hstep]
      have := ih c (fun u hu => hts u (by simp [hu]))
      simpa using this
    · have hstep : checkRateLimit t (some ⟨c, T⟩) =
          ({ allowed := true,
             remaining := RATE_LIMIT_PER_MINUTE - (c + 1),
             resetIn := (T : Int) - (t : Int) }, some ⟨c + 1, T⟩) := by
        simp only [checkRateLimit, hT, if_false]
        rw [if_neg hc]
      simp only [runRate, hstep]
      have := ih (c + 1) (fun u hu => hts u (by simp [hu]))
      simp only [List.countP_cons, if_true]
      simp only [RATE_LIMIT_PER_MINUTE] at *
      omega

/-- C8 amended: `checkRateLimit` enforces a fixed 60-second window anchored at
the first request after expiry: at most 60 calls for one identity are allowed
within one such window, and once the stored count has reached the limit,
every further call before the window's `resetAt` is denied with remaining = 0
and leaves the stored entry unchanged. -/
theorem checkRateLimit_fixed_window :
    (∀ (t0 : Nat) (ts : List Nat), (∀ t ∈ ts, t ≤ t0 + WINDOW_MS) →
      ((runRate (t0 :: ts) none).1.countP (fun r => r.allowed))
        ≤ RATE_LIMIT_PER_MINUTE) ∧
    (∀ (now : Nat) (e : RateLimitEntry),
      RATE_LIMIT_PER_MINUTE ≤ e.count → now ≤ e.resetAt →
      checkRateLimit now (some e) =
        ({ allowed := false, remaining := 0,
           resetIn := (e.resetAt : Int) - (now : Int) }, some e)) := by
  constructor
  · intro t0 ts hts
    have hfirst : checkRateLimit t0 none =
        ({ allowed := true, remaining := RATE_LIMIT_PER_MINUTE - 1,
           resetIn := (WINDOW_MS : Int) },
          some { count := 1, resetAt := t0 + WINDOW_MS }) := rfl
    simp only [runRate, hfirst, List.countP_cons, if_true]
    have := runRate_window_bound (t0 + WINDOW_MS) ts 1 hts
    simp only [RATE_LIMIT_PER_MINUTE] at *
    omega
  · intro now e hcount hnow
    have hT : ¬(e.resetAt < now) := by omega
    simp only [checkRateLimit, hT, if_false]
    rw [if_pos hcount]

theorem checkRateLimit_fixed_window_witness :
    (((runRate (0 :: List.replicate 60 0) none).1.countP (fun r => r.allowed))
      ≤ RATE_LIMIT_PER_MINUTE) ∧
    checkRateLimit 5 (some ⟨60, 60000⟩) =
      ({ allowed := false, remaining := 0, resetIn := (60000 : Int) - (5 : Int) },
        some ⟨60, 60000⟩) :=
  ⟨checkRateLimit_fixed_window.1 0 (List.replicate 60 0) (by decide),
    checkRateLimit_fixed_window.2 5 ⟨60, 60000⟩ (by decide) (by decide)⟩

/-- The `LoadingStage` union of src/src/types/enhance.ts. -/
inductive LoadingStage where
  | connecting
  | analyzing
  | enhancing
  | finalizing
deriving DecidableEq

/-- The `EnhanceMode` union of src/src/types/enhance.ts. -/
inductive EnhanceMode where
  | formal
  | creative
  | technical
  | marketing
deriving DecidableEq

/-- The result of the platform builtin `JSON.parse(jsonStr)` followed by the
`parsed.choices?.[0]?.delta?.content` extraction on one SSE frame payload,
supplied as a parameter: `.error ()` models a thrown parse exception, `.ok d`
success with `d` the optional content string. -/
abbrev ParseFun := List Char → Except Unit (Option (List Char))

/-- JS truthiness of the extracted `deltaContent` (`if (deltaContent)`):
false for `undefined` and for the empty string. -/
def truthyStr : Option (List Char) → Bool
  | some s => !s.isEmpty
  | none => false

/-- The mutable locals of the SSE read loop of enhancePrompt
(useEnhancePrompt.ts lines 87, 121-122) plus the loading stage it drives. -/
structure StreamState where
  result : List Char
  buffer : List Char
  tokenCount : Nat
  stage : LoadingStage
deriving DecidableEq

/-- The inner line-processing loop of the SSE read loop (useEnhancePrompt.ts
lines 130-158): extract the next line; skip comment/blank lines and lines
without the `data: ` prefix; on `[DONE]` set the finalizing stage and break;
on a parsed delta append it and continue; on a parse failure push the line
back onto the buffer and break. Every iteration consumes at least the first
newline of the buffer, so the loop runs at most `buffer.length` times; `fuel`
makes that bound explicit and the `fuel = 0` fallback is never reached when
started with `fuel = buffer.length`. -/
def processBufferGo (parse : ParseFun) : Nat → StreamState → StreamState
  | 0, st => st
  | fuel + 1, st =>
    match splitFirstNewline st.buffer with
    | none => st
    | some (line0, rest) =>
      let line := stripCR line0
      if [':'].isPrefixOf line || (jsTrim line).isEmpty then
        processBufferGo parse fuel { st with buffer := rest }
      else if !("data: ".toList.isPrefixOf line) then
        processBufferGo parse fuel { st with buffer := rest }
      else
        let jsonStr := jsTrim (line.drop 6)
        if jsonStr = "[DONE]".toList then
          { st with buffer := rest, stage := .finalizing }
        else
          match parse jsonStr with
          | .ok d =>
            if truthyStr d then
              processBufferGo parse fuel
                { result := st.result ++ d.getD []
                  buffer := rest
                  tokenCount := st.tokenCount + 1
                  stage := if 10 < st.tokenCount + 1 then .enhancing else st.stage }
            else
              processBufferGo parse fuel { st with buffer := rest }
          | .error _ => { st with buffer := line ++ '\n' :: rest }

/-- One run of the inner `while` loop on the current buffer. -/
def processBuffer (parse : ParseFun) (st : StreamState) : StreamState :=
  processBufferGo parse st.buffer.length st

/-- The outer read loop (useEnhancePrompt.ts lines 124-159): for each decoded
chunk, append it to the held buffer and run the inner line loop. -/
def processChunks (parse : ParseFun) : List (List Char) → StreamState → StreamState
  | [], st => st
  | c :: cs, st =>
    processChunks parse cs (processBuffer parse { st with buffer := st.buffer ++ c })

/-- Embeds `buffer.split("\n")` (useEnhancePrompt.ts line 163): split on every
newline, keeping empty segments, never dropping the trailing segment. -/
def splitAllNewlines : List Char → List (List Char)
  | [] => [[]]
  | c :: cs =>
    let rest := splitAllNewlines cs
    if c = '\n' then [] :: rest
    else (c :: rest.headD []) :: rest.tail

/-- One iteration of the final-flush loop body (useEnhancePrompt.ts lines
163-179): skip empty segments, strip one CR, require the `data: ` prefix,
skip the `[DONE]` payload, and append a successfully parsed truthy delta;
parse failures are ignored. -/
def flushLine (parse : ParseFun) (result raw0 : List Char) : List Char :=
  if raw0.isEmpty then result
  else
    let raw := stripCR raw0
    if !("data: ".toList.isPrefixOf raw) then result
    else
      let jsonStr := jsTrim (raw.drop 6)
      if jsonStr = "[DONE]".toList then result
      else
        match parse jsonStr with
        | .ok d => if truthyStr d then result ++ d.getD [] else result
        | .error _ => result

/-- The residual-buffer flush after the read loop (useEnhancePrompt.ts lines
161-180): when the held buffer is not blank, run every newline-separated
segment through the flush loop body. -/
def flushBuffer (parse : ParseFun) (st : StreamState) : StreamState :=
  if (jsTrim st.buffer).isEmpty then st
  else { st with result := (splitAllNewlines st.buffer).foldl (flushLine parse) st.result }

/-- The stream-loop state right after `setLoadingStage("enhancing")` and the
local declarations of useEnhancePrompt.ts lines 117-122. -/
def streamInit : StreamState :=
  { result := [], buffer := [], tokenCount := 0, stage := .enhancing }

/-- The whole streaming read phase of one successful response body: the read
loop over all chunks followed by the final flush. -/
def runStream (parse : ParseFun) (chunks : List (List Char)) : StreamState :=
  flushBuffer parse (processChunks parse chunks streamInit)

/-- The `EnhanceResult` record returned by enhancePrompt (types/enhance.ts
lines 12-19; the optional tokenCount/processingTime fields are never set by
the hook and are omitted). -/
structure EnhanceResult where
  result : List Char
  mode : EnhanceMode
  fileType : Option (List Char)
  originalContent : List Char
deriving DecidableEq

/-- The per-session React state of useEnhancePrompt (lines 18-27). -/
structure HookState where
  enhancedPrompt : List Char
  isEnhancing : Bool
  lastMode : EnhanceMode
  lastFileType : Option (List Char)
  lastOriginalContent : List Char
  lastImageData : Option (List (List Char))
  loadingStage : LoadingStage
  error : Option (List Char)
  errorType : Option EnhanceErrorType
  retryCount : Nat
deriving DecidableEq

/-- The initial state of a fresh session (the useState initialisers of
useEnhancePrompt.ts lines 18-27). -/
def initialHookState : HookState :=
  { enhancedPrompt := []
    isEnhancing := false
    lastMode := .formal
    lastFileType := none
    lastOriginalContent := []
    lastImageData := none
    loadingStage := .connecting
    error := none
    errorType := none
    retryCount := 0 }

/-- What the single `fetch` call of enhancePrompt resolves to: a thrown
exception carrying its `name` and `message`, or a response with its HTTP
status, the `error` field of its parsed JSON body (`(await
resp.json().catch(() => ({}))).error`, a platform builtin), and its decoded
body chunks (`none` models a null `resp.body`). -/
inductive FetchReply where
  | throws (name msg : List Char)
  | reply (status : Nat) (errorField : Option (List Char)) (body : Option (List (List Char)))

/-- JS `errorData.error || default` (useEnhancePrompt.ts line 104): the field
when present and truthy (non-empty), else the default message. -/
def jsOrDefault (v : Option (List Char)) (dflt : List Char) : List Char :=
  match v with
  | some s => if s.isEmpty then dflt else s
  | none => dflt

/-- Embeds one call of `enhancePrompt` (useEnhancePrompt.ts lines 55-199) as a
state transformer: given the parse builtin, what the fetch resolves to, the
session state and the call arguments, it returns the call's return value, the
session state after the call, and the number of fetch calls issued. Toasts,
logging and the AbortController plumbing are external effects; the
intermediate connecting/analyzing stage writes are superseded by later writes
within the same call, and the final values are recorded. -/
def enhancePromptModel (parse : ParseFun) (net : FetchReply) (st : HookState)
    (content : List Char) (mode : EnhanceMode) (fileType : Option (List Char))
    (imageData : Option (List (List Char))) :
    Option EnhanceResult × HookState × Nat :=
  let hasImages := match imageData with
    | some l => !l.isEmpty
    | none => false
  if (jsTrim content).isEmpty && !hasImages then (none, st, 0)
  else if st.isEnhancing then (none, st, 0)
  else
    let originalContent :=
      if content.isEmpty then "[Image-based prompt]".toList else content
    let st1 : HookState :=
      { enhancedPrompt := []
        isEnhancing := true
        lastMode := mode
        lastFileType := fileType
        lastOriginalContent := originalContent
        lastImageData := imageData
        loadingStage := .analyzing
        error := none
        errorType := none
        retryCount := 0 }
    match net with
    | .throws nm _ =>
      if nm = "AbortError".toList then
        (none, { st1 with errorType := some .abort, isEnhancing := false }, 1)
      else
        (none, { st1 with isEnhancing := false }, 1)
    | .reply status errorField body =>
      if !(decide (200 ≤ status) && decide (status < 300)) then
        let errorMessage :=
          jsOrDefault errorField ("Request failed: ".toList ++ (Nat.repr status).toList)
        let errType := classifyEnhanceError ⟨"ApiError".toList, errorMessage, some status⟩
        (none,
          { st1 with error := some errorMessage, errorType := some errType,
                     isEnhancing := false }, 1)
      else
        match body with
        | none => (none, { st1 with isEnhancing := false }, 1)
        | some chunks =>
          let sst := runStream parse chunks
          (some { result := sst.result, mode := mode, fileType := fileType,
                  originalContent := originalContent },
            { st1 with enhancedPrompt := sst.result, loadingStage := sst.stage,
                       isEnhancing := false }, 1)

/-- The opening of a canonical single-delta SSE frame payload,
`{"choices":[{"delta":{"content":"`. -/
def frameOpen : List Char := "\x7b\"choices\":[\x7b\"delta\":\x7b\"content\":\"".toList

/-- The closing of a canonical single-delta SSE frame payload, `"}}]}`. -/
def frameClose : List Char := "\"\x7d\x7d]\x7d".toList

/-- A concrete instance of the parse builtin: behaves like `JSON.parse` plus
the `choices[0].delta.content` extraction on canonical single-delta frames
whose content holds no quote or escape, and reports a parse failure on every
other input. -/
def demoParse : ParseFun := fun s =>
  if frameOpen.isPrefixOf s then
    let t := s.drop frameOpen.length
    if frameClose.isSuffixOf t
        && !((t.take (t.length - frameClose.length)).contains '"')
        && decide (frameClose.length ≤ t.length) then
      .ok (some (t.take (t.length - frameClose.length)))
    else .error ()
  else .error ()

/-- The SSE terminal sentinel line as one decoded chunk. -/
def doneChunk : List Char := "data: [DONE]\n".toList

/-- A well-formed delta frame line carrying content `X`, as one chunk. -/
def xFrameChunk : List Char :=
  "data: \x7b\"choices\":[\x7b\"delta\":\x7b\"content\":\"X\"\x7d\x7d]\x7d\n".toList

/-- C1: the claim fails on the code. Parsing `data: [DONE]` only breaks the
inner line loop (useEnhancePrompt.ts line 142); the outer read loop keeps
reading, so a delta arriving in a later chunk is still appended: on the chunk
sequence [`data: [DONE]\n`, delta-frame `X`] the sentinel is parsed during the
first chunk (the stage reaches finalizing), yet enhancePrompt returns
accumulated result `"X"`, not `""`. -/
theorem enhancePrompt_appends_delta_after_done :
    (processChunks demoParse [doneChunk] streamInit).stage = .finalizing ∧
    (enhancePromptModel demoParse (.reply 200 none (some [doneChunk, xFrameChunk]))
        initialHookState "hello".toList .formal none none).1
      = some { result := "X".toList, mode := .formal, fileType := none,
               originalContent := "hello".toList } ∧
    "X".toList ≠ ([] : List Char) :=
  ⟨by decide, by decide, by decide⟩

/-- C2: for every input and every split of it into consecutive chunks,
running the chunks sequentially through the line-extraction step of
enhancePrompt yields the same ordered line sequence (and the same residual
buffer) as processing the whole input as a single chunk. -/
theorem lineExtraction_chunking_invariant (chunks : List (List Char)) :
    processChunksLines chunks [] = processChunksLines [chunks.flatten] [] := by
  have h1 := processChunksLines_eq chunks [] rfl
  have h2 := processChunksLines_eq [chunks.flatten] [] rfl
  rw [h1, h2]
  simp

/-- C5 counterexample: the claim's justification is false on the code — 429
is in `DEFAULT_OPTIONS.retryableStatuses` (retry.ts line 15), so the
low-level retry layer would retry a 429: against a server always answering
429 it issues all four attempts. -/
theorem rateLimit_in_default_retryable_counterexample :
    DEFAULT_OPTIONS.retryableStatuses.contains 429 = true ∧
    (fetchWithRetry (fun _ => .resp ⟨429⟩) (fun _ => 0) DEFAULT_OPTIONS).2.1 = 4 :=
  ⟨by decide, by decide⟩

/-- C5 amended: when the server answers the session's request with 429 and
body error "slow down", the session records a failure classified rate-limit
carrying "slow down" and issues exactly one fetch (its path has no retry
layer at all); 429 is, however, in fetchWithRetry's default retryable-status
set — that utility simply is not on this path. -/
theorem session_rate_limit_slow_down (parse : ParseFun) (st : HookState)
    (content : List Char) (mode : EnhanceMode) (fileType : Option (List Char))
    (imageData : Option (List (List Char))) (body : Option (List (List Char)))
    (hc : (jsTrim content).isEmpty = false) (he : st.isEnhancing = false) :
    (enhancePromptModel parse (.reply 429 (some "slow down".toList) body) st
        content mode fileType imageData).1 = none ∧
    (enhancePromptModel parse (.reply 429 (some "slow down".toList) body) st
        content mode fileType imageData).2.1.errorType = some .rateLimit ∧
    (enhancePromptModel parse (.reply 429 (some "slow down".toList) body) st
        content mode fileType imageData).2.1.error = some "slow down".toList ∧
    (enhancePromptModel parse (.reply 429 (some "slow down".toList) body) st
        content mode fileType imageData).2.2 = 1 ∧
    DEFAULT_OPTIONS.retryableStatuses.contains 429 = true := by
  simp only [enhancePromptModel, hc, he, Bool.false_and, Bool.false_eq_true,
    if_false, jsOrDefault]
  refine ⟨rfl, ?_, ?_, ?_, by decide⟩ <;> rfl

theorem session_rate_limit_slow_down_witness :
    (enhancePromptModel demoParse
        (.reply 429 (some "slow down".toList) none) initialHookState
        "hello".toList .formal none none).2.1.errorType = some .rateLimit :=
  (session_rate_limit_slow_down demoParse initialHookState "hello".toList
    .formal none none none (by decide) rfl).2.1

/-- The oracle of an execution whose first attempt throws an AbortError and
whose second attempt succeeds. -/
def abortThenOkOracle : Nat → AttemptResult := fun i =>
  if i = 0 then .thrown "AbortError".toList "The user aborted a request.".toList
  else .resp ⟨200⟩

/-- C7 counterexample: `fetchWithRetry` has no special case for abort — after
an AbortError exception on attempt 0 it re-issues the request: with default
options it performs a second fetch (two calls in total) and returns that
attempt's response. -/
theorem fetchWithRetry_retries_abort_counterexample :
    (fetchWithRetry abortThenOkOracle (fun _ => 0) DEFAULT_OPTIONS).2.1 = 2 ∧
    (fetchWithRetry abortThenOkOracle (fun _ => 0) DEFAULT_OPTIONS).1 = .ok ⟨200⟩ :=
  ⟨by decide, by decide⟩

/-- C7 amended: an abort-classified failure is terminal in the session layer
— when the fetch rejects with an error named AbortError, enhancePrompt
records errorType abort and returns null after exactly one fetch, with no
retry — but `fetchWithRetry` treats an abort-named exception like any other
thrown error and re-issues the request while attempts remain. -/
theorem abort_terminal_in_session_not_in_fetchWithRetry :
    (∀ (parse : ParseFun) (st : HookState) (content : List Char)
        (mode : EnhanceMode) (fileType : Option (List Char))
        (imageData : Option (List (List Char))) (msg : List Char),
      (jsTrim content).isEmpty = false → st.isEnhancing = false →
      (enhancePromptModel parse (.throws "AbortError".toList msg) st
          content mode fileType imageData).1 = none ∧
      (enhancePromptModel parse (.throws "AbortError".toList msg) st
          content mode fileType imageData).2.1.errorType = some .abort ∧
      (enhancePromptModel parse (.throws "AbortError".toList msg) st
          content mode fileType imageData).2.2 = 1) ∧
    (∀ (oracle : Nat → AttemptResult) (rand : Nat → ℚ) (opts : RetryOptions)
        (nm msg : List Char),
      oracle 0 = .thrown nm msg → 0 < opts.maxRetries →
      2 ≤ (fetchWithRetry oracle rand opts).2.1) := by
  constructor
  · intro parse st content mode fileType imageData msg hc he
    simp only [enhancePromptModel, hc, he, Bool.false_and, Bool.false_eq_true,
      if_false]
    exact ⟨rfl, rfl, rfl⟩
  · intro oracle rand opts nm msg h0 hpos
    obtain ⟨m, hm⟩ : ∃ m, opts.maxRetries = m + 1 :=
      ⟨opts.maxRetries - 1, by omega⟩
    show 2 ≤ (fetchGo oracle rand opts 0 (opts.maxRetries + 1)).2.1
    rw [hm]
    simp only [fetchGo, h0]
    rw [if_neg (by omega : ¬(0 = opts.maxRetries))]
    have hq := fetchGo_count_pos oracle rand opts 1 m
    show 2 ≤ (fetchGo oracle rand opts 1 (m + 1)).2.1 + 1
    omega

theorem abort_terminal_witness :
    (enhancePromptModel demoParse
        (.throws "AbortError".toList "aborted".toList) initialHookState
        "hello".toList .formal none none).2.1.errorType = some .abort ∧
    2 ≤ (fetchWithRetry abortThenOkOracle (fun _ => 1 / 2) DEFAULT_OPTIONS).2.1 :=
  ⟨(abort_terminal_in_session_not_in_fetchWithRetry.1 demoParse initialHookState
      "hello".toList .formal none none "aborted".toList (by decide) rfl).2.1,
    abort_terminal_in_session_not_in_fetchWithRetry.2 abortThenOkOracle
      (fun _ => 1 / 2) DEFAULT_OPTIONS "AbortError".toList
      "The user aborted a request.".toList rfl (by decide)⟩

/-- C9: a call with empty or whitespace-only content and absent or empty
imageData returns null immediately, issues no fetch, and leaves every piece
of session state unchanged. -/
theorem enhancePrompt_empty_input_frame (parse : ParseFun) (net : FetchReply)
    (st : HookState) (content : List Char) (mode : EnhanceMode)
    (fileType : Option (List Char)) (imageData : Option (List (List Char)))
    (hc : (jsTrim content).isEmpty = true)
    (hi : imageData = none ∨ imageData = some []) :
    enhancePromptModel parse net st content mode fileType imageData
      = (none, st, 0) := by
  rcases hi with rfl | rfl <;> simp [enhancePromptModel, hc]

theorem enhancePrompt_empty_input_frame_witness :
    (jsTrim "   ".toList).isEmpty = true ∧
    enhancePromptModel demoParse (.reply 200 none none) initialHookState
        "   ".toList .formal none none = (none, initialHookState, 0) :=
  ⟨by decide,
    enhancePrompt_empty_input_frame demoParse (.reply 200 none none)
      initialHookState "   ".toList .formal none none (by decide) (Or.inl rfl)⟩
